import Mathlib

/-!
# Verification of `lead_scorer.py`

A shallow embedding of the lead-scoring script.  Strings are modelled as
`List Char`.  The two external effects of `score_lead` — the model-inference
call (`client.messages.create`) and `json.loads` — are passed in explicitly:
the call as a `CallOutcome` value per inquiry, and the decoder as a function
`List Char → DecodeOutcome`.  Of a parsed JSON object only its `"score"`
entry is tracked (`ParsedObj`), since no other parsed field affects any
verified property.  JSON numbers are modelled as integers (the prompt
requests an integer score 1-10).  Python float division in the analytics
average is modelled as exact division in `Rat`.
-/

namespace LeadScorer

/-- Python `str.strip()` on the left: drop leading whitespace. -/
def dropLeadWS (s : List Char) : List Char := s.dropWhile Char.isWhitespace

/-- Python `str.strip()` on the right: drop trailing whitespace. -/
def dropTrailWS (s : List Char) : List Char :=
  (s.reverse.dropWhile Char.isWhitespace).reverse

/-- Python `str.strip()`: drop leading and trailing whitespace. -/
def pystrip (s : List Char) : List Char := dropTrailWS (dropLeadWS s)

/-- The backtick character (written via its code point). -/
def btick : Char := Char.ofNat 96

/-- The three-backtick code-fence marker. -/
def fence : List Char := [btick, btick, btick]

/-- The fence marker with the `json` language tag. -/
def fenceJson : List Char := fence ++ ['j', 's', 'o', 'n']

/-- Python's substring containment test `sep in s`: does `sep` occur
(contiguously) somewhere in `s`? -/
def hasOcc (sep : List Char) : List Char → Bool
  | [] => sep.isEmpty
  | c :: rest => sep.isPrefixOf (c :: rest) || hasOcc sep rest

/-- `noStartIn sep m z = true` iff no occurrence of `sep` in `m ++ z`
starts at a position inside `m`. -/
def noStartIn (sep : List Char) : List Char → List Char → Bool
  | [], _ => true
  | c :: m, z => !sep.isPrefixOf (c :: (m ++ z)) && noStartIn sep m z

/-- Worker for Python `s.split(a :: sep)` (non-empty separator): scans `s`
left to right, cutting at each non-overlapping occurrence of the separator,
with `acc` the segment collected so far. -/
def pysplitAux (a : Char) (sep : List Char) : List Char → List Char → List (List Char)
  | acc, [] => [acc]
  | acc, c :: rest =>
    if (a :: sep).isPrefixOf (c :: rest) then
      acc :: pysplitAux a sep [] (rest.drop sep.length)
    else
      pysplitAux a sep (acc ++ [c]) rest
termination_by _ s => s.length
decreasing_by
  all_goals simp only [List.length_drop, List.length_cons]
  all_goals omega

/-- Python's `s.split(sep)` for a non-empty separator (on the empty
separator Python raises; the script only splits on fence markers). -/
def pysplit (sep s : List Char) : List (List Char) :=
  match sep with
  | [] => [s]
  | a :: sep' => pysplitAux a sep' [] s

/-- The markdown-fence cleanup applied to the model response
(lines 66-74 of `lead_scorer.py`): strip, then if `"` + "``json" + `"` occurs
take `split("` + "``json" + `")[1].split("` + "``" + `")[0].strip()`, else if a plain
fence occurs take `split` + `("` + "``" + `")[1].split("` + "``" + `")[0].strip()`. -/
def cleanup (t0 : List Char) : List Char :=
  let t := pystrip t0
  if hasOcc fenceJson t then
    pystrip ((pysplit fence ((pysplit fenceJson t).getD 1 [])).getD 0 [])
  else if hasOcc fence t then
    pystrip ((pysplit fence ((pysplit fence t).getD 1 [])).getD 0 [])
  else t

/-- The value found under the `"score"` key of a decoded JSON object:
either a number (modelled as an integer) or JSON `null` (Python `None`). -/
inductive ScoreVal where
  | num (n : Int)
  | null
deriving DecidableEq, Repr

/-- The part of a decoded JSON object the claims depend on: its `"score"`
entry (`none` when the key is absent). -/
structure ParsedObj where
  score : Option ScoreVal
deriving DecidableEq, Repr

/-- Outcome of `json.loads` on the cleaned response text: a decoded object,
or a `json.JSONDecodeError` carrying its message. -/
inductive DecodeOutcome where
  | ok (obj : ParsedObj)
  | err (msg : List Char)
deriving DecidableEq, Repr

/-- Outcome of the `client.messages.create` call for one inquiry:
a text completion, a raised `json.JSONDecodeError` (caught by the first
handler with `response_text` unbound, hence `raw_response = "No response"`),
or any other raised exception carrying its message. -/
inductive CallOutcome where
  | response (text : List Char)
  | raisesJson (msg : List Char)
  | raises (msg : List Char)
deriving DecidableEq, Repr

/-- The per-inquiry result dictionary.  Each field is `Option`al because the
Python dict only holds the keys the taken path assigns. -/
structure ScoreResult where
  score : Option ScoreVal
  status : List Char
  error : Option (List Char)
  original_inquiry : Option (List Char)
  raw_response : Option (List Char)
  timestamp : Option (List Char)
deriving DecidableEq, Repr

def succStr : List Char := "success".toList

def failedStr : List Char := "failed".toList

def jsonErrHead : List Char := "JSON parsing error: ".toList

def noResponseStr : List Char := "No response".toList

/-- The ellipsis marker `"..."` appended on truncation. -/
def ellipsis : List Char := ['.', '.', '.']

/-- Line 79-80: `inquiry_text[:150] + "..." if len(inquiry_text) > 150 else
inquiry_text`. -/
def truncated_inquiry (t : List Char) : List Char :=
  if 150 < t.length then t.take 150 ++ ellipsis else t

/-- `score_lead` (lines 11-99): sends one inquiry to the model, cleans up
and decodes the response, and returns the enriched result dict.  `decode`
models `json.loads`, `ts` the `datetime.now().isoformat()` timestamp and
`call` the outcome of the inference call on this inquiry. -/
def score_lead (decode : List Char → DecodeOutcome) (ts : List Char)
    (call : CallOutcome) (inquiry_text : List Char) : ScoreResult :=
  match call with
  | .response text =>
    let response_text := cleanup text
    match decode response_text with
    | .ok obj =>
      { score := obj.score
        status := succStr
        error := none
        original_inquiry := some (truncated_inquiry inquiry_text)
        raw_response := none
        timestamp := some ts }
    | .err m =>
      { score := some .null
        status := failedStr
        error := some (jsonErrHead ++ m)
        original_inquiry := none
        raw_response := some response_text
        timestamp := none }
  | .raisesJson m =>
      { score := some .null
        status := failedStr
        error := some (jsonErrHead ++ m)
        original_inquiry := none
        raw_response := some noResponseStr
        timestamp := none }
  | .raises m =>
      { score := some .null
        status := failedStr
        error := some m
        original_inquiry := some (inquiry_text.take 150 ++ ellipsis)
        raw_response := none
        timestamp := none }

/-- The sort/analytics key `r.get("score", 0)`: the stored score value when
the key is present (possibly `None`), else the integer `0`. -/
def sortKey (r : ScoreResult) : ScoreVal := r.score.getD (.num 0)

/-- Is `r.get("score", 0)` a number (as opposed to Python `None`)? -/
def isNumKey (r : ScoreResult) : Bool :=
  match sortKey r with
  | .num _ => true
  | .null => false

/-- The integer value of the key, defined only meaningfully on numeric keys
(the `.null` branch is never reached on an argument with a numeric key). -/
def keyNum (r : ScoreResult) : Int :=
  match sortKey r with
  | .num n => n
  | .null => 0

/-- The comparison relation of the stable descending sort: `a` may precede
`b` iff `key b ≤ key a`; the sort is `List.insertionSort`, which is a
stable sort, as CPython `list.sort` is. -/
def descRel (a b : ScoreResult) : Prop := keyNum b ≤ keyNum a

instance : DecidableRel descRel := fun a b => Int.decLe (keyNum b) (keyNum a)

instance : IsTrans ScoreResult descRel :=
  ⟨fun _ _ _ hab hbc => le_trans hbc hab⟩

instance : IsTotal ScoreResult descRel :=
  ⟨fun a b => le_total (keyNum b) (keyNum a)⟩

def typeErrStr : List Char :=
  "TypeError: comparison not supported between NoneType and int".toList

/-- CPython `list.sort(key=lambda x: x.get("score", 0), reverse=True)`:
a stable descending sort on the key.  It raises `TypeError` exactly when the
keys mix `None` with a number (any such list compares a `None` key with a
numeric key during insertion into a prefix that is still single-typed);
an all-`None` key list compares only `None < None`, which is `False`
everywhere, so the list is returned unchanged. -/
def pysortDesc (rs : List ScoreResult) : Except (List Char) (List ScoreResult) :=
  if rs.all isNumKey then .ok (List.insertionSort descRel rs)
  else if rs.all (fun r => !isNumKey r) then .ok rs
  else .error typeErrStr

/-- Python `x >= k` on a score value: raises `TypeError` on `None`. -/
def pyGe (v : ScoreVal) (k : Int) : Except (List Char) Bool :=
  match v with
  | .num n => .ok (decide (k ≤ n))
  | .null => .error typeErrStr

/-- Python `x < k` on a score value: raises `TypeError` on `None`. -/
def pyLt (v : ScoreVal) (k : Int) : Except (List Char) Bool :=
  match v with
  | .num n => .ok (decide (n < k))
  | .null => .error typeErrStr

/-- Python chained `4 <= x < 7` on a score value. -/
def pyWarm (v : ScoreVal) : Except (List Char) Bool :=
  match v with
  | .num n => .ok (decide (4 ≤ n ∧ n < 7))
  | .null => .error typeErrStr

/-- `len([r for r in rs if p r])` where the predicate may raise: elements
are inspected left to right and the first raise propagates. -/
def countExcept (p : ScoreResult → Except (List Char) Bool) :
    List ScoreResult → Except (List Char) Nat
  | [] => .ok 0
  | r :: rs =>
    match p r with
    | .error e => .error e
    | .ok b =>
      match countExcept p rs with
      | .error e => .error e
      | .ok n => .ok (if b then n + 1 else n)

/-- `sum(r.get("score", 0) for r in rs)`: raises `TypeError` at the first
`None` key. -/
def sumScores : List ScoreResult → Except (List Char) Int
  | [] => .ok 0
  | r :: rs =>
    match sortKey r with
    | .null => .error typeErrStr
    | .num n =>
      match sumScores rs with
      | .error e => .error e
      | .ok s => .ok (n + s)

/-- The analytics dictionary (lines 128-135). -/
structure Analytics where
  total_leads : Nat
  scored_successfully : Nat
  hot_leads_count : Nat
  warm_leads_count : Nat
  cold_leads_count : Nat
  average_score : Rat
deriving DecidableEq, Repr

/-- The dictionary returned by `score_multiple_leads` (lines 137-141). -/
structure BatchResult where
  all_results : List ScoreResult
  sorted_by_priority : List ScoreResult
  analytics : Analytics
deriving DecidableEq, Repr

/-- The filter `r.get("status") == "success"`. -/
def isSuccess (r : ScoreResult) : Bool := r.status == succStr

/-- `score_multiple_leads` (lines 102-141).  `batch` pairs each inquiry
with the outcome of its inference call; progress printing is a side effect
outside the functional contract and is not modelled.  A raised `TypeError`
from the sort, the band counts or the average surfaces as `.error`. -/
def score_multiple_leads (decode : List Char → DecodeOutcome) (ts : List Char)
    (batch : List (List Char × CallOutcome)) : Except (List Char) BatchResult :=
  let results := batch.map (fun p => score_lead decode ts p.2 p.1)
  match pysortDesc (results.filter isSuccess) with
  | .error e => .error e
  | .ok successful_leads =>
    match countExcept (fun r => pyGe (sortKey r) 7) successful_leads with
    | .error e => .error e
    | .ok hot =>
      match countExcept (fun r => pyWarm (sortKey r)) successful_leads with
      | .error e => .error e
      | .ok warm =>
        match countExcept (fun r => pyLt (sortKey r) 4) successful_leads with
        | .error e => .error e
        | .ok cold =>
          match
            if successful_leads.isEmpty then Except.ok (0 : Rat)
            else
              match sumScores successful_leads with
              | .error e => .error e
              | .ok s => .ok ((s : Rat) / (successful_leads.length : Rat)) with
          | .error e => .error e
          | .ok avg =>
            .ok
              { all_results := results
                sorted_by_priority := successful_leads
                analytics :=
                  { total_leads := results.length
                    scored_successfully := successful_leads.length
                    hot_leads_count := hot
                    warm_leads_count := warm
                    cold_leads_count := cold
                    average_score := avg } }

/-- The `datetime.now()` value visible to `strftime("%Y%m%d_%H%M%S")`. -/
structure PyDateTime where
  year : Nat
  month : Nat
  day : Nat
  hour : Nat
  minute : Nat
  second : Nat
deriving DecidableEq, Repr

/-- The decimal digit character for `n < 10`. -/
def digitChar (n : Nat) : Char := Char.ofNat (48 + n)

/-- Decimal digits of `n`, most significant first. -/
def natDigits (n : Nat) : List Char :=
  if n < 10 then [digitChar n]
  else natDigits (n / 10) ++ [digitChar (n % 10)]
decreasing_by exact Nat.div_lt_self (by omega) (by omega)

/-- Zero-pad the decimal form of `n` to width `w` (strftime field padding). -/
def padZeros (w : Nat) (n : Nat) : List Char :=
  List.replicate (w - (natDigits n).length) '0' ++ natDigits n

/-- `datetime.now().strftime("%Y%m%d_%H%M%S")`. -/
def strftimeYmdHms (t : PyDateTime) : List Char :=
  padZeros 4 t.year ++ padZeros 2 t.month ++ padZeros 2 t.day ++ ['_'] ++
    padZeros 2 t.hour ++ padZeros 2 t.minute ++ padZeros 2 t.second

/-- The observable effect of `save_lead_scores`: the path opened for the
write and the value returned to the caller. -/
structure SaveOutcome where
  written_to : List Char
  returned : List Char
deriving DecidableEq, Repr

def leadScoresHead : List Char := "lead_scores_".toList

def jsonExt : List Char := ".json".toList

/-- `save_lead_scores` (lines 144-164): derive the filename from the clock
when none is given, write there, and return the filename used.  `now` is the
`datetime.now()` value read when the filename is derived. -/
def save_lead_scores (now : PyDateTime) (filename : Option (List Char)) : SaveOutcome :=
  let fn :=
    match filename with
    | none => leadScoresHead ++ strftimeYmdHms now ++ jsonExt
    | some f => f
  { written_to := fn, returned := fn }

def placeholderKey : List Char := "api-key-here".toList

/-- Lines 7-8: `os.environ.get("ANTHROPIC_API_KEY") or "api-key-here"`.
`env` is the environment entry (`none` when the variable is absent);
Python's `or` keeps the left value iff it is truthy, and a string is truthy
iff it is non-empty. -/
def api_key (env : Option (List Char)) : List Char :=
  match env with
  | none => placeholderKey
  | some s => if s.isEmpty then placeholderKey else s

/-- The double-quote character. -/
def qc : Char := Char.ofNat 34

/-- The JSON document with a numeric score 8. -/
def jsonScore8Txt : List Char :=
  ['{', qc, 's', 'c', 'o', 'r', 'e', qc, ':', ' ', '8', '}']

/-- The JSON document with a numeric score 3. -/
def jsonScore3Txt : List Char :=
  ['{', qc, 's', 'c', 'o', 'r', 'e', qc, ':', ' ', '3', '}']

/-- The JSON document whose `"score"` entry is JSON `null`. -/
def jsonScoreNullTxt : List Char :=
  ['{', qc, 's', 'c', 'o', 'r', 'e', qc, ':', ' ', 'n', 'u', 'l', 'l', '}']

def decodeErrStr : List Char := "Expecting value: line 1 column 1 (char 0)".toList

/-- Models `json.loads` on the concrete documents used in the witnesses:
the three well-formed objects above decode to objects with the corresponding
`"score"` entry, and every other input fails with a decode error (the
witness inputs below are not valid JSON). -/
def decodeStub (t : List Char) : DecodeOutcome :=
  if t = jsonScore8Txt then .ok { score := some (.num 8) }
  else if t = jsonScore3Txt then .ok { score := some (.num 3) }
  else if t = jsonScoreNullTxt then .ok { score := some .null }
  else .err decodeErrStr

/-- A model response wrapped in a fenced code block with the `json` tag,
fences on their own lines. -/
def wrapJsonFence (s : List Char) : List Char :=
  fenceJson ++ '\n' :: (s ++ '\n' :: fence)

/-- A model response wrapped in a plain fenced code block, fences on their
own lines. -/
def wrapPlainFence (s : List Char) : List Char :=
  fence ++ '\n' :: (s ++ '\n' :: fence)

/-- Field bounds satisfied by every clock reading (`datetime` enforces
year 1-9999 and the usual calendar ranges). -/
def validDateTime (t : PyDateTime) : Prop :=
  t.year < 10000 ∧ t.month < 100 ∧ t.day < 100 ∧
    t.hour < 100 ∧ t.minute < 100 ∧ t.second < 100

instance (t : PyDateTime) : Decidable (validDateTime t) := by
  unfold validDateTime; infer_instance

end LeadScorer

deriving instance DecidableEq for Except

namespace LeadScorer

theorem sortKey_eq_num {r : ScoreResult} (h : isNumKey r = true) :
    sortKey r = .num (keyNum r) := by
  unfold isNumKey at h
  cases hs : sortKey r with
  | num n => simp [keyNum, hs]
  | null => rw [hs] at h; simp at h

/-- C10: the credential fallback to the placeholder triggers when the
environment variable is absent and also when it is present but set to the
empty string, because Python's `or` tests truthiness; any non-empty value
is kept. -/
theorem c10_api_key_truthiness :
    api_key none = placeholderKey ∧ api_key (some []) = placeholderKey ∧
      ∀ s : List Char, s ≠ [] → api_key (some s) = s := by
  refine ⟨rfl, rfl, ?_⟩
  intro s hs
  cases s with
  | nil => exact absurd rfl hs
  | cons c t => rfl

/-- Witness for C10 at a concrete non-empty value. -/
theorem c10_witness : api_key (some ['k']) = ['k'] :=
  c10_api_key_truthiness.2.2 ['k'] (by decide)

/-- C5 counterexample: on the generic-failure path the ellipsis marker is
appended even to a 2-character inquiry, so `original_inquiry` is not the
inquiry verbatim as the truncation law requires. -/
theorem c5_cex :
    ['h', 'i'].length ≤ 150 ∧
      (score_lead decodeStub [] (.raises ['b']) ['h', 'i']).original_inquiry ≠
        some ['h', 'i'] ∧
      (score_lead decodeStub [] (.raises ['b']) ['h', 'i']).original_inquiry =
        some ['h', 'i', '.', '.', '.'] := by
  decide

/-- C5 (amended): on any non-decode failure `score_lead` returns a failed
record exposing the error message, with `original_inquiry` equal to the
first 150 characters of the inquiry followed by the ellipsis marker
unconditionally — the marker is appended even when the inquiry has at most
150 characters. -/
theorem c5_generic_failure_record (decode : List Char → DecodeOutcome)
    (ts msg inquiry_text : List Char) :
    score_lead decode ts (.raises msg) inquiry_text =
      { score := some .null
        status := failedStr
        error := some msg
        original_inquiry := some (inquiry_text.take 150 ++ ellipsis)
        raw_response := none
        timestamp := none } := rfl

/-- C4: when the cleaned response fails to decode as JSON, `score_lead`
returns (rather than raises) a failed record with a non-empty error message
containing the decode error, a null score, and the text that failed to
parse exposed as `raw_response`. -/
theorem c4_decode_failure (decode : List Char → DecodeOutcome)
    (ts text inquiry_text m : List Char) (h : decode (cleanup text) = .err m) :
    score_lead decode ts (.response text) inquiry_text =
      { score := some .null
        status := failedStr
        error := some (jsonErrHead ++ m)
        original_inquiry := none
        raw_response := some (cleanup text)
        timestamp := none } ∧
      jsonErrHead ++ m ≠ [] := by
  constructor
  · simp [score_lead, h]
  · intro he
    have h0 : jsonErrHead = [] := (List.append_eq_nil.mp he).1
    exact absurd h0 (by decide)

/-- Witness for C4 on a concrete non-JSON response. -/
theorem c4_witness :
    score_lead decodeStub [] (.response ("oops".toList)) ['q'] =
      { score := some .null
        status := failedStr
        error := some (jsonErrHead ++ decodeErrStr)
        original_inquiry := none
        raw_response := some (cleanup ("oops".toList))
        timestamp := none } ∧
      jsonErrHead ++ decodeErrStr ≠ [] :=
  c4_decode_failure decodeStub [] ("oops".toList) ['q'] decodeErrStr (by decide)

/-- C3: on the success path `original_inquiry` is the inquiry verbatim when
its length is at most 150, and the first 150 characters followed by the
ellipsis marker (total length exactly 153) when it is longer. -/
theorem c3_success_truncation (decode : List Char → DecodeOutcome)
    (ts text inquiry_text : List Char) (obj : ParsedObj)
    (h : decode (cleanup text) = .ok obj) :
    (inquiry_text.length ≤ 150 →
        (score_lead decode ts (.response text) inquiry_text).original_inquiry =
          some inquiry_text) ∧
      (150 < inquiry_text.length →
        (score_lead decode ts (.response text) inquiry_text).original_inquiry =
            some (inquiry_text.take 150 ++ ellipsis) ∧
          (inquiry_text.take 150 ++ ellipsis).length = 153) := by
  have hr : (score_lead decode ts (.response text) inquiry_text).original_inquiry =
      some (truncated_inquiry inquiry_text) := by
    simp [score_lead, h]
  constructor
  · intro hle
    rw [hr]
    simp [truncated_inquiry, Nat.not_lt.mpr hle]
  · intro hgt
    refine ⟨?_, ?_⟩
    · rw [hr]
      simp [truncated_inquiry, hgt]
    · simp [List.length_append, List.length_take, ellipsis]
      omega

/-- Witness for C3 at a 200-character inquiry. -/
theorem c3_witness :
    ((List.replicate 200 'x').length ≤ 150 →
        (score_lead decodeStub [] (.response jsonScore8Txt)
            (List.replicate 200 'x')).original_inquiry =
          some (List.replicate 200 'x')) ∧
      (150 < (List.replicate 200 'x').length →
        (score_lead decodeStub [] (.response jsonScore8Txt)
              (List.replicate 200 'x')).original_inquiry =
            some ((List.replicate 200 'x').take 150 ++ ellipsis) ∧
          ((List.replicate 200 'x').take 150 ++ ellipsis).length = 153) :=
  c3_success_truncation decodeStub [] jsonScore8Txt (List.replicate 200 'x')
    { score := some (.num 8) } (by decide)

/-- C9: a syntactically valid response whose `"score"` is JSON `null`
yields a status=success record, yet a batch containing it together with
another successful numeric result makes `score_multiple_leads` raise a
`TypeError` instead of returning a `BatchResult`. -/
theorem c9_null_score_typeerror :
    (score_lead decodeStub [] (.response jsonScoreNullTxt) ['a']).status = succStr ∧
      (score_lead decodeStub [] (.response jsonScoreNullTxt) ['a']).score = some .null ∧
      score_multiple_leads decodeStub []
          [(['a'], .response jsonScoreNullTxt), (['b'], .response jsonScore8Txt)] =
        .error typeErrStr := by
  refine ⟨by decide, by decide, ?_⟩
  rfl

theorem natDigits_length_pos (n : Nat) : 1 ≤ (natDigits n).length := by
  rw [natDigits]
  split
  · simp
  · simp

theorem natDigits_length_le (k : Nat) :
    ∀ n : Nat, n < 10 ^ k → (natDigits n).length ≤ max 1 k := by
  induction k with
  | zero =>
    intro n hn
    have h0 : n = 0 := by simpa using hn
    subst h0
    rw [natDigits]
    simp
  | succ k ih =>
    intro n hn
    rw [natDigits]
    split
    · simp
    · rename_i h10
      have hpow : 10 ^ (k + 1) = 10 ^ k * 10 := pow_succ 10 k
      have hd : n / 10 < 10 ^ k := by
        rw [hpow] at hn
        omega
      have hk1 : 1 ≤ k := by
        rcases Nat.eq_zero_or_pos k with hk | hk
        · subst hk
          norm_num at hn
          omega
        · exact hk
      have hlen := ih (n / 10) hd
      simp only [List.length_append, List.length_singleton]
      omega

theorem padZeros_length (w n : Nat) (h : (natDigits n).length ≤ w) :
    (padZeros w n).length = w := by
  simp [padZeros]
  omega

theorem strftimeYmdHms_length (t : PyDateTime) (hv : validDateTime t) :
    (strftimeYmdHms t).length = 15 := by
  obtain ⟨h1, h2, h3, h4, h5, h6⟩ := hv
  have e4 : (10 : Nat) ^ 4 = 10000 := by norm_num
  have e2 : (10 : Nat) ^ 2 = 100 := by norm_num
  have l1 : (natDigits t.year).length ≤ 4 := by
    have := natDigits_length_le 4 t.year (by rw [e4]; exact h1)
    omega
  have l2 : (natDigits t.month).length ≤ 2 := by
    have := natDigits_length_le 2 t.month (by rw [e2]; exact h2)
    omega
  have l3 : (natDigits t.day).length ≤ 2 := by
    have := natDigits_length_le 2 t.day (by rw [e2]; exact h3)
    omega
  have l4 : (natDigits t.hour).length ≤ 2 := by
    have := natDigits_length_le 2 t.hour (by rw [e2]; exact h4)
    omega
  have l5 : (natDigits t.minute).length ≤ 2 := by
    have := natDigits_length_le 2 t.minute (by rw [e2]; exact h5)
    omega
  have l6 : (natDigits t.second).length ≤ 2 := by
    have := natDigits_length_le 2 t.second (by rw [e2]; exact h6)
    omega
  have p1 := padZeros_length 4 t.year l1
  have p2 := padZeros_length 2 t.month l2
  have p3 := padZeros_length 2 t.day l3
  have p4 := padZeros_length 2 t.hour l4
  have p5 := padZeros_length 2 t.minute l5
  have p6 := padZeros_length 2 t.second l6
  simp only [strftimeYmdHms, List.length_append, List.length_cons, List.length_nil]
  omega

/-- C8: with no filename given, `save_lead_scores` derives
`lead_scores_<YYYYMMDD_HHMMSS>.json` from the current clock reading (the
strftime body being 15 characters, 8 + underscore + 6); with a given name
it uses that name; and in every case the returned filename is exactly the
one the write targeted. -/
theorem c8_save_filename (t : PyDateTime) (filename : Option (List Char))
    (hv : validDateTime t) :
    (save_lead_scores t filename).returned = (save_lead_scores t filename).written_to ∧
      (save_lead_scores t none).returned =
        leadScoresHead ++ strftimeYmdHms t ++ jsonExt ∧
      (strftimeYmdHms t).length = 15 ∧
      ∀ f, filename = some f → (save_lead_scores t filename).returned = f := by
  refine ⟨rfl, rfl, strftimeYmdHms_length t hv, ?_⟩
  intro f hf
  subst hf
  rfl

/-- Witness for C8 at a concrete clock reading with no filename given. -/
theorem c8_witness :
    (save_lead_scores ⟨2026, 10, 12, 3, 4, 5⟩ none).returned =
        (save_lead_scores ⟨2026, 10, 12, 3, 4, 5⟩ none).written_to ∧
      (save_lead_scores ⟨2026, 10, 12, 3, 4, 5⟩ none).returned =
        leadScoresHead ++ strftimeYmdHms ⟨2026, 10, 12, 3, 4, 5⟩ ++ jsonExt ∧
      (strftimeYmdHms ⟨2026, 10, 12, 3, 4, 5⟩).length = 15 ∧
      ∀ f, (none : Option (List Char)) = some f →
        (save_lead_scores ⟨2026, 10, 12, 3, 4, 5⟩ none).returned = f :=
  c8_save_filename ⟨2026, 10, 12, 3, 4, 5⟩ none (by decide)

end LeadScorer

namespace LeadScorer

theorem countExcept_eq_ok (p : ScoreResult → Except (List Char) Bool)
    (q : ScoreResult → Bool) (rs : List ScoreResult)
    (h : ∀ r ∈ rs, p r = .ok (q r)) :
    countExcept p rs = .ok (rs.countP q) := by
  induction rs with
  | nil => rfl
  | cons r rs ih =>
    have hr : p r = .ok (q r) := h r (List.mem_cons_self r rs)
    have ih' := ih (fun x hx => h x (List.mem_cons_of_mem r hx))
    rw [countExcept, hr, ih', List.countP_cons]
    cases hq : q r <;> simp [hq]

theorem sumScores_eq_ok (rs : List ScoreResult) (h : rs.all isNumKey = true) :
    sumScores rs = .ok (rs.map keyNum).sum := by
  induction rs with
  | nil => rfl
  | cons r rs ih =>
    simp only [List.all_cons, Bool.and_eq_true] at h
    obtain ⟨hr, hrs⟩ := h
    rw [sumScores, sortKey_eq_num hr, ih hrs]
    simp

theorem countP3_partition (rs : List ScoreResult) :
    rs.countP (fun r => decide ((7 : Int) ≤ keyNum r)) +
        rs.countP (fun r => decide ((4 : Int) ≤ keyNum r ∧ keyNum r < 7)) +
        rs.countP (fun r => decide (keyNum r < (4 : Int))) = rs.length := by
  induction rs with
  | nil => simp
  | cons r rs ih =>
    simp only [List.countP_cons, List.length_cons]
    rcases lt_or_le (keyNum r) 4 with h | h
    · have e1 : decide ((7 : Int) ≤ keyNum r) = false := by
        simp only [decide_eq_false_iff_not]; omega
      have e2 : decide ((4 : Int) ≤ keyNum r ∧ keyNum r < 7) = false := by
        simp only [decide_eq_false_iff_not]; push_neg; omega
      have e3 : decide (keyNum r < (4 : Int)) = true := decide_eq_true h
      simp only [e1, e2, e3, eq_self_iff_true, Bool.false_eq_true, if_true, if_false]
      omega
    · rcases lt_or_le (keyNum r) 7 with h7 | h7
      · have e1 : decide ((7 : Int) ≤ keyNum r) = false := by
          simp only [decide_eq_false_iff_not]; omega
        have e2 : decide ((4 : Int) ≤ keyNum r ∧ keyNum r < 7) = true :=
          decide_eq_true ⟨h, h7⟩
        have e3 : decide (keyNum r < (4 : Int)) = false := by
          simp only [decide_eq_false_iff_not]; omega
        simp only [e1, e2, e3, eq_self_iff_true, Bool.false_eq_true, if_true, if_false]
        omega
      · have e1 : decide ((7 : Int) ≤ keyNum r) = true := decide_eq_true h7
        have e2 : decide ((4 : Int) ≤ keyNum r ∧ keyNum r < 7) = false := by
          simp only [decide_eq_false_iff_not]; push_neg; omega
        have e3 : decide (keyNum r < (4 : Int)) = false := by
          simp only [decide_eq_false_iff_not]; omega
        simp only [e1, e2, e3, eq_self_iff_true, Bool.false_eq_true, if_true, if_false]
        omega

theorem smul_eq_ok_of_allnum (decode : List Char → DecodeOutcome) (ts : List Char)
    (batch : List (List Char × CallOutcome)) (results sorted : List ScoreResult)
    (hres : results = batch.map (fun p => score_lead decode ts p.2 p.1))
    (hall : (results.filter isSuccess).all isNumKey = true)
    (hsorted : sorted = List.insertionSort descRel (results.filter isSuccess)) :
    score_multiple_leads decode ts batch =
      .ok
        { all_results := results
          sorted_by_priority := sorted
          analytics :=
            { total_leads := results.length
              scored_successfully := sorted.length
              hot_leads_count := sorted.countP (fun r => decide ((7 : Int) ≤ keyNum r))
              warm_leads_count :=
                sorted.countP (fun r => decide ((4 : Int) ≤ keyNum r ∧ keyNum r < 7))
              cold_leads_count := sorted.countP (fun r => decide (keyNum r < (4 : Int)))
              average_score :=
                if sorted.isEmpty then 0
                else ((sorted.map keyNum).sum : Rat) / (sorted.length : Rat) } } := by
  subst hres
  subst hsorted
  have hsortall : ∀ r ∈ (List.insertionSort descRel ((batch.map (fun p => score_lead decode ts p.2 p.1)).filter
      isSuccess)), isNumKey r = true := by
    intro r hr
    exact List.all_eq_true.mp hall r
      ((List.perm_insertionSort descRel _).mem_iff.mp hr)
  have hsort : pysortDesc ((batch.map (fun p => score_lead decode ts p.2 p.1)).filter
      isSuccess) =
      .ok (List.insertionSort descRel
        ((batch.map (fun p => score_lead decode ts p.2 p.1)).filter isSuccess)) := by
    simp [pysortDesc, hall]
  have hhot := countExcept_eq_ok (fun r => pyGe (sortKey r) 7)
    (fun r => decide ((7 : Int) ≤ keyNum r)) _
    (fun r hr => by
      show pyGe (sortKey r) 7 = Except.ok (decide ((7 : Int) ≤ keyNum r))
      rw [sortKey_eq_num (hsortall r hr)]
      rfl)
  have hwarm := countExcept_eq_ok (fun r => pyWarm (sortKey r))
    (fun r => decide ((4 : Int) ≤ keyNum r ∧ keyNum r < 7)) _
    (fun r hr => by
      show pyWarm (sortKey r) = Except.ok (decide ((4 : Int) ≤ keyNum r ∧ keyNum r < 7))
      rw [sortKey_eq_num (hsortall r hr)]
      rfl)
  have hcold := countExcept_eq_ok (fun r => pyLt (sortKey r) 4)
    (fun r => decide (keyNum r < (4 : Int))) _
    (fun r hr => by
      show pyLt (sortKey r) 4 = Except.ok (decide (keyNum r < (4 : Int)))
      rw [sortKey_eq_num (hsortall r hr)]
      rfl)
  have hsum := sumScores_eq_ok _ (List.all_eq_true.mpr hsortall)
  cases hemp : (List.insertionSort descRel ((batch.map (fun p => score_lead decode ts p.2 p.1)).filter
      isSuccess)).isEmpty with
  | true => simp [score_multiple_leads, hsort, hhot, hwarm, hcold, hemp]
  | false => simp [score_multiple_leads, hsort, hhot, hwarm, hcold, hsum, hemp]

theorem smul_cases (decode : List Char → DecodeOutcome) (ts : List Char)
    (batch : List (List Char × CallOutcome)) :
    ((batch.map (fun p => score_lead decode ts p.2 p.1)).filter isSuccess).all
        isNumKey = true ∨
      ∃ e, score_multiple_leads decode ts batch = .error e := by
  cases hA : ((batch.map (fun p => score_lead decode ts p.2 p.1)).filter
      isSuccess).all isNumKey with
  | true => exact Or.inl rfl
  | false =>
    right
    cases hB : ((batch.map (fun p => score_lead decode ts p.2 p.1)).filter
        isSuccess).all (fun r => !isNumKey r) with
    | false =>
      refine ⟨typeErrStr, ?_⟩
      simp [score_multiple_leads, pysortDesc, hA, hB]
    | true =>
      cases hS : (batch.map (fun p => score_lead decode ts p.2 p.1)).filter isSuccess with
      | nil => rw [hS] at hA; simp at hA
      | cons r rs =>
        have hrnull : sortKey r = .null := by
          have hr : (!isNumKey r) = true := by
            have := List.all_eq_true.mp hB r (by rw [hS]; exact List.mem_cons_self r rs)
            simpa using this
          cases hk : sortKey r with
          | num n => rw [isNumKey, hk] at hr; simp at hr
          | null => rfl
        refine ⟨typeErrStr, ?_⟩
        rw [hS] at hA hB
        have hsortid : pysortDesc (r :: rs) = .ok (r :: rs) := by
          simp [pysortDesc, hA, hB]
        have hcount : countExcept (fun x => pyGe (sortKey x) 7) (r :: rs) =
            .error typeErrStr := by
          simp [countExcept, pyGe, hrnull]
        simp [score_multiple_leads, hS, hsortid, hcount]

/-- C2: whenever `score_multiple_leads` returns a `BatchResult`, the three
score bands (hot at least 7, warm 4-6, cold below 4, over the successful
results) partition exactly:
`hot_leads_count + warm_leads_count + cold_leads_count = scored_successfully`. -/
theorem c2_band_partition (decode : List Char → DecodeOutcome) (ts : List Char)
    (batch : List (List Char × CallOutcome)) (b : BatchResult)
    (h : score_multiple_leads decode ts batch = .ok b) :
    b.analytics.hot_leads_count + b.analytics.warm_leads_count +
        b.analytics.cold_leads_count = b.analytics.scored_successfully := by
  rcases smul_cases decode ts batch with hall | ⟨e, he⟩
  · have heq := smul_eq_ok_of_allnum decode ts batch _ _ rfl hall rfl
    rw [heq] at h
    injection h with hb
    subst hb
    simpa using countP3_partition
      (List.insertionSort descRel
        ((batch.map (fun p => score_lead decode ts p.2 p.1)).filter isSuccess))
  · rw [he] at h
    exact Except.noConfusion h

end LeadScorer

namespace LeadScorer

/-- Witness for C2 on a one-success batch. -/
theorem c2_witness :
    (List.insertionSort descRel
        (([(['a'], CallOutcome.response jsonScore8Txt)].map
            (fun p => score_lead decodeStub [] p.2 p.1)).filter isSuccess)).countP
        (fun r => decide ((7 : Int) ≤ keyNum r)) +
      (List.insertionSort descRel
          (([(['a'], CallOutcome.response jsonScore8Txt)].map
              (fun p => score_lead decodeStub [] p.2 p.1)).filter isSuccess)).countP
        (fun r => decide ((4 : Int) ≤ keyNum r ∧ keyNum r < 7)) +
      (List.insertionSort descRel
          (([(['a'], CallOutcome.response jsonScore8Txt)].map
              (fun p => score_lead decodeStub [] p.2 p.1)).filter isSuccess)).countP
        (fun r => decide (keyNum r < (4 : Int))) =
      (List.insertionSort descRel
          (([(['a'], CallOutcome.response jsonScore8Txt)].map
              (fun p => score_lead decodeStub [] p.2 p.1)).filter isSuccess)).length :=
  c2_band_partition decodeStub [] [(['a'], CallOutcome.response jsonScore8Txt)] _
    (smul_eq_ok_of_allnum decodeStub [] [(['a'], CallOutcome.response jsonScore8Txt)] _ _
      rfl (by decide) rfl)

/-- C6: whenever `score_multiple_leads` returns a `BatchResult`, its
`average_score` equals the exact arithmetic mean of the score keys of the
successful results (a missing score contributing 0), and equals 0 when
there is no successful result. -/
theorem c6_average_score (decode : List Char → DecodeOutcome) (ts : List Char)
    (batch : List (List Char × CallOutcome)) (b : BatchResult)
    (h : score_multiple_leads decode ts batch = .ok b) :
    b.analytics.average_score =
      if (b.all_results.filter isSuccess).length = 0 then 0
      else (((b.all_results.filter isSuccess).map keyNum).sum : Rat) /
        ((b.all_results.filter isSuccess).length : Rat) := by
  rcases smul_cases decode ts batch with hall | ⟨e, he⟩
  · have heq := smul_eq_ok_of_allnum decode ts batch _ _ rfl hall rfl
    rw [heq] at h
    injection h with hb
    subst hb
    have hperm : (List.insertionSort descRel
        ((batch.map (fun p => score_lead decode ts p.2 p.1)).filter isSuccess)).Perm
        ((batch.map (fun p => score_lead decode ts p.2 p.1)).filter isSuccess) :=
      List.perm_insertionSort descRel _
    have hlen := hperm.length_eq
    have hsum : ((List.insertionSort descRel
        ((batch.map (fun p => score_lead decode ts p.2 p.1)).filter
          isSuccess)).map keyNum).sum =
        (((batch.map (fun p => score_lead decode ts p.2 p.1)).filter
          isSuccess).map keyNum).sum :=
      (hperm.map keyNum).sum_eq
    by_cases hl : ((batch.map (fun p => score_lead decode ts p.2 p.1)).filter
        isSuccess).length = 0
    · have hnil : (batch.map (fun p => score_lead decode ts p.2 p.1)).filter
          isSuccess = [] := List.length_eq_zero.mp hl
      simp [hnil]
    · have hie : (List.insertionSort descRel
          ((batch.map (fun p => score_lead decode ts p.2 p.1)).filter
            isSuccess)).isEmpty = false := by
        rw [List.isEmpty_eq_false]
        intro h0
        apply hl
        rw [← hlen, h0]
        rfl
      simp only [hie, Bool.false_eq_true, if_false, if_neg hl, hsum, hlen]
  · rw [he] at h
    exact Except.noConfusion h

/-- Witness for C6 on the empty batch (no successful results, average 0). -/
theorem c6_witness :
    (BatchResult.mk [] [] (Analytics.mk 0 0 0 0 0 0)).analytics.average_score =
      if ((BatchResult.mk [] [] (Analytics.mk 0 0 0 0 0 0)).all_results.filter
          isSuccess).length = 0 then 0
      else ((((BatchResult.mk [] [] (Analytics.mk 0 0 0 0 0 0)).all_results.filter
            isSuccess).map keyNum).sum : Rat) /
        (((BatchResult.mk [] [] (Analytics.mk 0 0 0 0 0 0)).all_results.filter
          isSuccess).length : Rat) :=
  c6_average_score decodeStub [] [] (BatchResult.mk [] [] (Analytics.mk 0 0 0 0 0 0))
    (by decide)

/-- C1: on a batch whose successful results all carry a numeric (or absent)
score key, `score_multiple_leads` returns a `BatchResult` whose
`all_results` has exactly one entry per inquiry in input order regardless
of the success/failure mix, and whose `sorted_by_priority` consists of
exactly the successful entries (no failed entry), sorted descending on the
score key (missing score counting as 0), equal-key entries keeping their
relative input order. -/
theorem c1_batch_ordering (decode : List Char → DecodeOutcome) (ts : List Char)
    (batch : List (List Char × CallOutcome))
    (hall : ((batch.map (fun p => score_lead decode ts p.2 p.1)).filter
      isSuccess).all isNumKey = true) :
    ∃ b, score_multiple_leads decode ts batch = .ok b ∧
      b.all_results = batch.map (fun p => score_lead decode ts p.2 p.1) ∧
      b.sorted_by_priority.Perm (b.all_results.filter isSuccess) ∧
      (∀ r ∈ b.sorted_by_priority, isSuccess r = true) ∧
      b.sorted_by_priority.Pairwise (fun a c => keyNum c ≤ keyNum a) ∧
      ∀ k : Int, b.sorted_by_priority.filter (fun r => keyNum r == k) =
        (b.all_results.filter isSuccess).filter (fun r => keyNum r == k) := by
  refine ⟨_, smul_eq_ok_of_allnum decode ts batch _ _ rfl hall rfl, rfl, ?_, ?_, ?_, ?_⟩
  · exact List.perm_insertionSort descRel _
  · intro r hr
    have hr' := (List.perm_insertionSort descRel _).mem_iff.mp hr
    exact (List.mem_filter.mp hr').2
  · exact (List.sorted_insertionSort descRel _).imp (fun h => h)
  · intro k
    have hpw : (((batch.map (fun p => score_lead decode ts p.2 p.1)).filter
        isSuccess).filter (fun r => keyNum r == k)).Pairwise descRel := by
      refine List.pairwise_of_forall_mem_list ?_
      intro a ha b hb
      have hka : keyNum a = k := by simpa using (List.mem_filter.mp ha).2
      have hkb : keyNum b = k := by simpa using (List.mem_filter.mp hb).2
      simp [descRel, hka, hkb]
    have hin := List.sublist_insertionSort hpw
      (List.filter_sublist ((batch.map (fun p => score_lead decode ts p.2 p.1)).filter
        isSuccess))
    have hfil : (((batch.map (fun p => score_lead decode ts p.2 p.1)).filter
        isSuccess).filter (fun r => keyNum r == k)).filter (fun r => keyNum r == k) =
        ((batch.map (fun p => score_lead decode ts p.2 p.1)).filter
          isSuccess).filter (fun r => keyNum r == k) :=
      List.filter_eq_self.mpr (fun a ha => (List.mem_filter.mp ha).2)
    have hsubf := hin.filter (fun r => keyNum r == k)
    rw [hfil] at hsubf
    have hpermf := (List.perm_insertionSort descRel ((batch.map
        (fun p => score_lead decode ts p.2 p.1)).filter isSuccess)).filter
      (fun r => keyNum r == k)
    exact (hsubf.eq_of_length (hpermf.length_eq.symm)).symm

/-- Witness for C1 on a three-entry batch: two successes (scores 8 and 3)
and one failed call. -/
theorem c1_witness :
    ∃ b, score_multiple_leads decodeStub []
        [(['a'], .response jsonScore8Txt), (['b'], .response jsonScore3Txt),
          (['c'], .raises ['x'])] = .ok b ∧
      b.all_results =
        [(['a'], CallOutcome.response jsonScore8Txt), (['b'], .response jsonScore3Txt),
          (['c'], .raises ['x'])].map (fun p => score_lead decodeStub [] p.2 p.1) ∧
      b.sorted_by_priority.Perm (b.all_results.filter isSuccess) ∧
      (∀ r ∈ b.sorted_by_priority, isSuccess r = true) ∧
      b.sorted_by_priority.Pairwise (fun a c => keyNum c ≤ keyNum a) ∧
      ∀ k : Int, b.sorted_by_priority.filter (fun r => keyNum r == k) =
        (b.all_results.filter isSuccess).filter (fun r => keyNum r == k) :=
  c1_batch_ordering decodeStub []
    [(['a'], .response jsonScore8Txt), (['b'], .response jsonScore3Txt),
      (['c'], .raises ['x'])] (by decide)

end LeadScorer

namespace LeadScorer

theorem hasOcc_eq_true_iff (sep s : List Char) :
    hasOcc sep s = true ↔ ∃ x y, s = x ++ sep ++ y := by
  induction s with
  | nil =>
    rw [hasOcc]
    constructor
    · intro h
      have hsep : sep = [] := List.isEmpty_iff.mp h
      exact ⟨[], [], by simp [hsep]⟩
    · rintro ⟨x, y, hxy⟩
      have hx : (x ++ sep) ++ y = [] := hxy.symm
      have h1 := (List.append_eq_nil.mp hx).1
      have h2 := (List.append_eq_nil.mp h1).2
      simp [h2, List.isEmpty_iff]
  | cons c rest ih =>
    rw [hasOcc, Bool.or_eq_true]
    constructor
    · rintro (hpre | hocc)
      · obtain ⟨t, ht⟩ := List.isPrefixOf_iff_prefix.mp hpre
        exact ⟨[], t, by simp [← ht]⟩
      · obtain ⟨x, y, hxy⟩ := ih.mp hocc
        exact ⟨c :: x, y, by simp [hxy]⟩
    · rintro ⟨x, y, hxy⟩
      cases x with
      | nil =>
        left
        apply List.isPrefixOf_iff_prefix.mpr
        exact ⟨y, by simpa using hxy.symm⟩
      | cons d x' =>
        right
        apply ih.mpr
        refine ⟨x', y, ?_⟩
        simp only [List.cons_append, List.cons.injEq] at hxy
        exact hxy.2

theorem hasOcc_of_hasOcc_of_pre (sep1 sep2 s : List Char) (hp : sep1 <+: sep2)
    (h : hasOcc sep2 s = true) : hasOcc sep1 s = true := by
  obtain ⟨x, y, hxy⟩ := (hasOcc_eq_true_iff sep2 s).mp h
  obtain ⟨t, ht⟩ := hp
  refine (hasOcc_eq_true_iff sep1 s).mpr ⟨x, t ++ y, ?_⟩
  rw [hxy, ← ht]
  simp [List.append_assoc]

theorem hasOcc_of_within (sep t s : List Char) (hi : t <:+: s)
    (h : hasOcc sep t = true) : hasOcc sep s = true := by
  obtain ⟨x, y, hxy⟩ := (hasOcc_eq_true_iff sep t).mp h
  obtain ⟨u, v, huv⟩ := hi
  refine (hasOcc_eq_true_iff sep s).mpr ⟨u ++ x, y ++ v, ?_⟩
  rw [← huv, hxy]
  simp [List.append_assoc]

theorem hasOcc_append (sep x y : List Char) :
    hasOcc sep (x ++ y) = (!noStartIn sep x y || hasOcc sep y) := by
  induction x with
  | nil => simp [noStartIn]
  | cons c x' ih =>
    rw [List.cons_append, hasOcc, noStartIn, ih]
    simp [Bool.not_and, Bool.not_not, Bool.or_assoc]

theorem noStartIn_of_no_occ (sep x y' : List Char) (hnl : '\n' ∉ sep)
    (h : hasOcc sep x = false) : noStartIn sep x ('\n' :: y') = true := by
  induction x with
  | nil => rfl
  | cons c x' ih =>
    rw [hasOcc, Bool.or_eq_false_iff] at h
    obtain ⟨h1, h2⟩ := h
    rw [noStartIn, Bool.and_eq_true, Bool.not_eq_true']
    refine ⟨?_, ih h2⟩
    cases hb : sep.isPrefixOf (c :: (x' ++ '\n' :: y')) with
    | false => rfl
    | true =>
      exfalso
      have hpre : sep <+: c :: (x' ++ '\n' :: y') := List.isPrefixOf_iff_prefix.mp hb
      by_cases hlen : sep.length ≤ (c :: x').length
      · have hcx : (c :: x') <+: c :: (x' ++ '\n' :: y') := ⟨'\n' :: y', by simp⟩
        have hshort : sep <+: c :: x' :=
          List.prefix_of_prefix_length_le hpre hcx hlen
        have hb' : sep.isPrefixOf (c :: x') = true :=
          List.isPrefixOf_iff_prefix.mpr hshort
        rw [hb'] at h1
        exact Bool.noConfusion h1
      · push_neg at hlen
        have hlong : (c :: x') ++ ['\n'] <+: c :: (x' ++ '\n' :: y') := ⟨y', by simp⟩
        have hsub : (c :: x') ++ ['\n'] <+: sep := by
          refine List.prefix_of_prefix_length_le hlong hpre ?_
          simp only [List.length_append, List.length_cons, List.length_nil] at hlen ⊢
          omega
        have hmem : '\n' ∈ sep := hsub.subset (by simp)
        exact hnl hmem

theorem noStartIn_append (sep x1 x2 z : List Char) :
    noStartIn sep (x1 ++ x2) z = (noStartIn sep x1 (x2 ++ z) && noStartIn sep x2 z) := by
  induction x1 with
  | nil => simp [noStartIn]
  | cons c x' ih =>
    rw [List.cons_append, noStartIn, noStartIn, ih, List.append_assoc]
    simp [Bool.and_assoc]

end LeadScorer

namespace LeadScorer

theorem pysplitAux_no_occ (a : Char) (sep s : List Char)
    (h : hasOcc (a :: sep) s = false) :
    ∀ acc, pysplitAux a sep acc s = [acc ++ s] := by
  induction s with
  | nil => intro acc; rw [pysplitAux]; simp
  | cons c rest ih =>
    intro acc
    rw [hasOcc, Bool.or_eq_false_iff] at h
    obtain ⟨h1, h2⟩ := h
    rw [pysplitAux, if_neg (by simp [h1])]
    rw [ih h2]
    simp

theorem pysplitAux_head (a : Char) (sep acc t : List Char) :
    pysplitAux a sep acc ((a :: sep) ++ t) = acc :: pysplitAux a sep [] t := by
  rw [List.cons_append, pysplitAux,
    if_pos (List.isPrefixOf_iff_prefix.mpr ⟨t, by simp⟩)]
  congr 1
  rw [List.drop_left]

theorem pysplitAux_skip (a : Char) (sep m z : List Char)
    (h : noStartIn (a :: sep) m z = true) :
    ∀ acc, pysplitAux a sep acc (m ++ z) = pysplitAux a sep (acc ++ m) z := by
  induction m with
  | nil => intro acc; simp
  | cons c m' ih =>
    intro acc
    rw [noStartIn, Bool.and_eq_true, Bool.not_eq_true'] at h
    obtain ⟨h1, h2⟩ := h
    rw [List.cons_append, pysplitAux, if_neg (by simp [h1]), ih h2, List.append_assoc]
    rfl

theorem pystrip_cons_newline (s : List Char) : pystrip ('\n' :: s) = pystrip s := by
  have h : Char.isWhitespace '\n' = true := by decide
  simp [pystrip, dropLeadWS, List.dropWhile_cons, h]

theorem dropTrailWS_append_newline (x : List Char) :
    dropTrailWS (x ++ ['\n']) = dropTrailWS x := by
  have hws : Char.isWhitespace '\n' = true := by decide
  unfold dropTrailWS
  rw [List.reverse_append]
  simp [List.dropWhile_cons, hws]

theorem pystrip_append_newline (s : List Char) :
    pystrip (s ++ ['\n']) = pystrip s := by
  have hws : Char.isWhitespace '\n' = true := by decide
  unfold pystrip dropLeadWS
  rw [List.dropWhile_append]
  by_cases hemp : (s.dropWhile Char.isWhitespace).isEmpty
  · rw [if_pos hemp]
    have h0 : s.dropWhile Char.isWhitespace = [] := List.isEmpty_iff.mp hemp
    rw [h0]
    simp [List.dropWhile_cons, hws, dropTrailWS]
  · rw [if_neg hemp]
    exact dropTrailWS_append_newline _

theorem pystrip_of_ends (a b : Char) (t : List Char) (ha : Char.isWhitespace a = false)
    (hb : Char.isWhitespace b = false) :
    pystrip (a :: (t ++ [b])) = a :: (t ++ [b]) := by
  unfold pystrip dropLeadWS dropTrailWS
  rw [List.dropWhile_cons, if_neg (by simp [ha])]
  have hrev : (a :: (t ++ [b])).reverse = b :: (t.reverse ++ [a]) := by simp
  rw [hrev, List.dropWhile_cons, if_neg (by simp [hb]), ← hrev, List.reverse_reverse]

theorem pystrip_within (s : List Char) : pystrip s <:+: s := by
  have h1 : dropLeadWS s <:+ s := List.dropWhile_suffix Char.isWhitespace
  have h2 : pystrip s <+: dropLeadWS s := by
    unfold pystrip dropTrailWS
    obtain ⟨u, hu⟩ :=
      (List.dropWhile_suffix Char.isWhitespace :
        (dropLeadWS s).reverse.dropWhile Char.isWhitespace <:+ (dropLeadWS s).reverse)
    refine ⟨u.reverse, ?_⟩
    have := congrArg List.reverse hu
    simpa [List.reverse_append] using this
  obtain ⟨v, hv⟩ := h2
  obtain ⟨u, hu⟩ := h1
  exact ⟨u, v, by rw [List.append_assoc, hv, hu]⟩

end LeadScorer

namespace LeadScorer

theorem wrapJsonFence_shape (s : List Char) :
    wrapJsonFence s =
      btick :: (([btick, btick, 'j', 's', 'o', 'n', '\n'] ++ s ++
        ['\n', btick, btick]) ++ [btick]) := by
  simp [wrapJsonFence, fenceJson, fence]

theorem wrapPlainFence_shape (s : List Char) :
    wrapPlainFence s =
      btick :: (([btick, btick, '\n'] ++ s ++ ['\n', btick, btick]) ++ [btick]) := by
  simp [wrapPlainFence, fence]

/-- C7: the response cleanup first strips surrounding whitespace
(an unfenced response is just stripped), and a response wrapped in a fenced
code block — with or without the `json` language tag — cleans up to exactly
what the bare response cleans up to, namely the stripped inner content, so
both decode to the same result.  `hs` states that the wrapped text contains
no fence marker of its own, which is what makes the response
"wrapped in a fenced code block" well defined. -/
theorem c7_fence_cleanup (s : List Char) (hs : hasOcc fence s = false) :
    cleanup (wrapJsonFence s) = cleanup s ∧
      cleanup (wrapPlainFence s) = cleanup s ∧
      cleanup s = pystrip s := by
  have hsJ : hasOcc fenceJson s = false := by
    cases ho : hasOcc fenceJson s with
    | false => rfl
    | true =>
      have hc := hasOcc_of_hasOcc_of_pre fence fenceJson s ⟨['j', 's', 'o', 'n'], rfl⟩ ho
      rw [hs] at hc
      exact Bool.noConfusion hc
  -- the inner text between the fences, and its occurrence facts
  have hmocc : hasOcc fenceJson ('\n' :: (s ++ '\n' :: fence)) = false := by
    have h1 : ('\n' :: (s ++ '\n' :: fence)) = ('\n' :: s) ++ ('\n' :: fence) := by simp
    rw [h1, hasOcc_append]
    have h2 : noStartIn fenceJson ('\n' :: s) ('\n' :: fence) = true := by
      rw [noStartIn, Bool.and_eq_true, Bool.not_eq_true']
      exact ⟨rfl, noStartIn_of_no_occ fenceJson s fence (by decide) hsJ⟩
    have h3 : hasOcc fenceJson ('\n' :: fence) = false := by decide
    rw [h2, h3]
    rfl
  have hm0 : '\n' :: (s ++ '\n' :: fence) = ('\n' :: (s ++ ['\n'])) ++ fence := by simp
  have hnsm : noStartIn fence ('\n' :: (s ++ ['\n'])) fence = true := by
    rw [noStartIn, Bool.and_eq_true, Bool.not_eq_true']
    refine ⟨rfl, ?_⟩
    rw [noStartIn_append, List.singleton_append]
    rw [noStartIn_of_no_occ fence s fence (by decide) hs]
    decide
  have hsplitF : pysplit fence ('\n' :: (s ++ '\n' :: fence)) =
      ['\n' :: (s ++ ['\n']), []] := by
    show pysplitAux btick [btick, btick] [] ('\n' :: (s ++ '\n' :: fence)) = _
    rw [hm0, pysplitAux_skip btick [btick, btick] _ _ hnsm]
    rw [show fence = (btick :: [btick, btick]) ++ [] by simp [fence]]
    rw [pysplitAux_head, pysplitAux]
    simp
  have hoccm0 : hasOcc fence ('\n' :: (s ++ ['\n'])) = false := by
    have h1 : ('\n' :: (s ++ ['\n'])) = ('\n' :: s) ++ ['\n'] := by simp
    rw [h1, hasOcc_append]
    have h2 : noStartIn fence ('\n' :: s) ['\n'] = true := by
      rw [noStartIn, Bool.and_eq_true, Bool.not_eq_true']
      exact ⟨rfl, noStartIn_of_no_occ fence s [] (by decide) hs⟩
    rw [h2]
    decide
  have hsplitm0 : pysplit fence ('\n' :: (s ++ ['\n'])) = ['\n' :: (s ++ ['\n'])] := by
    show pysplitAux btick [btick, btick] [] ('\n' :: (s ++ ['\n'])) = _
    rw [pysplitAux_no_occ btick [btick, btick] _ hoccm0]
    rfl
  have hinner : pystrip ('\n' :: (s ++ ['\n'])) = pystrip s := by
    rw [pystrip_cons_newline, pystrip_append_newline]
  -- the bare response: both fence tests fail after stripping
  have hps : hasOcc fence (pystrip s) = false := by
    cases ho : hasOcc fence (pystrip s) with
    | false => rfl
    | true =>
      have hc := hasOcc_of_within fence (pystrip s) s (pystrip_within s) ho
      rw [hs] at hc
      exact Bool.noConfusion hc
  have hpsJ : hasOcc fenceJson (pystrip s) = false := by
    cases ho : hasOcc fenceJson (pystrip s) with
    | false => rfl
    | true =>
      have hc := hasOcc_of_hasOcc_of_pre fence fenceJson _ ⟨['j', 's', 'o', 'n'], rfl⟩ ho
      rw [hps] at hc
      exact Bool.noConfusion hc
  have hcleanbare : cleanup s = pystrip s := by
    unfold cleanup
    simp only [hpsJ, hps, Bool.false_eq_true, if_false]
  -- the json-tagged wrapped response
  have hclean1 : cleanup (wrapJsonFence s) = pystrip s := by
    have hstrip1 : pystrip (wrapJsonFence s) = wrapJsonFence s := by
      rw [wrapJsonFence_shape]
      exact pystrip_of_ends btick btick _ (by decide) (by decide)
    have hocc1 : hasOcc fenceJson (wrapJsonFence s) = true := by
      exact (hasOcc_eq_true_iff _ _).mpr ⟨[], '\n' :: (s ++ '\n' :: fence), rfl⟩
    have hsplitJ : pysplit fenceJson (wrapJsonFence s) =
        [[], '\n' :: (s ++ '\n' :: fence)] := by
      show pysplitAux btick [btick, btick, 'j', 's', 'o', 'n'] [] (wrapJsonFence s) = _
      rw [show wrapJsonFence s = (btick :: [btick, btick, 'j', 's', 'o', 'n']) ++
        ('\n' :: (s ++ '\n' :: fence)) by simp [wrapJsonFence, fenceJson, fence]]
      rw [pysplitAux_head, pysplitAux_no_occ btick [btick, btick, 'j', 's', 'o', 'n'] _
        hmocc]
      rfl
    unfold cleanup
    simp only [hstrip1, hocc1, if_true, hsplitJ, List.getD_cons_succ, List.getD_cons_zero,
      hsplitF, hinner]
  -- the plain wrapped response
  have hclean2 : cleanup (wrapPlainFence s) = pystrip s := by
    have hstrip2 : pystrip (wrapPlainFence s) = wrapPlainFence s := by
      rw [wrapPlainFence_shape]
      exact pystrip_of_ends btick btick _ (by decide) (by decide)
    have hocc2J : hasOcc fenceJson (wrapPlainFence s) = false := by
      rw [show wrapPlainFence s = fence ++ ('\n' :: (s ++ '\n' :: fence)) from rfl]
      rw [hasOcc_append]
      rw [noStartIn_of_no_occ fenceJson fence (s ++ '\n' :: fence) (by decide) (by decide),
        hmocc]
      rfl
    have hocc2F : hasOcc fence (wrapPlainFence s) = true := by
      exact (hasOcc_eq_true_iff _ _).mpr ⟨[], '\n' :: (s ++ '\n' :: fence), rfl⟩
    have hsplitP : pysplit fence (wrapPlainFence s) =
        [[], '\n' :: (s ++ ['\n']), []] := by
      show pysplitAux btick [btick, btick] [] (wrapPlainFence s) = _
      rw [show wrapPlainFence s = (btick :: [btick, btick]) ++
        ('\n' :: (s ++ '\n' :: fence)) by simp [wrapPlainFence, fence]]
      rw [pysplitAux_head, hm0, pysplitAux_skip btick [btick, btick] _ _ hnsm]
      rw [show fence = (btick :: [btick, btick]) ++ [] by simp [fence]]
      rw [pysplitAux_head, pysplitAux]
      simp
    unfold cleanup
    simp only [hstrip2, hocc2J, Bool.false_eq_true, if_false, hocc2F, if_true, hsplitP,
      List.getD_cons_succ, List.getD_cons_zero, hsplitm0, hinner]
  exact ⟨hclean1.trans hcleanbare.symm, hclean2.trans hcleanbare.symm, hcleanbare⟩

/-- Witness for C7 at a concrete JSON document. -/
theorem c7_witness :
    cleanup (wrapJsonFence jsonScore8Txt) = cleanup jsonScore8Txt ∧
      cleanup (wrapPlainFence jsonScore8Txt) = cleanup jsonScore8Txt ∧
      cleanup jsonScore8Txt = pystrip jsonScore8Txt :=
  c7_fence_cleanup jsonScore8Txt (by decide)

end LeadScorer
